import Mathlib

/-!
Verification of the seabox asset-manifest model and runtime bootstrap engine.

This file gives a shallow embedding of the relevant parts of the seabox
sources and proves (or refutes) the specification claims about them:

* `bootstrap.js` (runtime template): the `fs` overrides (`existsSync`,
  `readFileSync`), `getRedirectedPath`, `resolveEnvVars`,
  `getExtractionCacheDir`, `extractBinary` and the binary-extraction loop of
  `bootstrap()`.
* `crypto-assets.js`: `encryptAsset`, `decryptAsset`, `encryptAssets`.
* `manifest.js`: `generateManifest`, `inferExtractionOrder`.
* `scanner.js`: the asset-collection loop of `scanAssets`,
  `normalizeAssetKey`, `isBinaryAsset`.

Modelling conventions:

* Byte buffers are `List Nat` (each entry one byte).
* The embedding models a POSIX host: `path.sep` is `'/'` and requested paths
  are assumed to already be in normal form, so `path.normalize` is the
  identity; `path.join a b` is `a ++ "/" ++ b` and `path.resolve cwd p` for a
  relative `p` is `cwd ++ "/" ++ p` (all paths clean, no trailing slashes).
* SHA-256 and AES-256-GCM are platform primitives, not seabox code; they are
  parameters of the definitions (`sha : List Nat → String`, the `Gcm`
  structure), and the theorems carry their contracts as hypotheses where
  needed.
* JavaScript truthiness on strings (`''` is falsy) is modelled explicitly
  wherever the source branches on a possibly empty string.
* The filesystem is a finite association list from path to file bytes plus a
  list of existing directories; `fs.unlinkSync`/`fs.writeFileSync`/
  `fs.mkdirSync` act on it directly (they are not overridden in the source),
  while the overridden `fs.existsSync`/`fs.readFileSync` consult the redirect
  table first, exactly as installed at the top of `bootstrap.js`.
-/

namespace Seabox

/-! ## String helpers (POSIX `path` primitives) -/

/-- Bytes of a file or blob entry. -/
abbrev Bytes := List Nat

/-- `suffix.isSuffixOf s` on the underlying character lists: JS `String.prototype.endsWith`. -/
def strEndsWith (s suffix : String) : Bool :=
  suffix.data.isSuffixOf s.data

/-- JS `String.prototype.startsWith`. -/
def strStartsWith (s pre : String) : Bool :=
  pre.data.isPrefixOf s.data

/-- Character-list segment containment, used for JS `String.prototype.includes`. -/
def segOf (sub : List Char) : List Char → Bool
  | [] => sub.isEmpty
  | c :: cs => sub.isPrefixOf (c :: cs) || segOf sub cs

/-- JS `String.prototype.includes`. -/
def strContains (s sub : String) : Bool :=
  segOf sub.data s.data

/-- Characters of the last `/`-separated component of a path. -/
def basenameChars (l : List Char) : List Char :=
  (l.reverse.takeWhile (fun c => c ≠ '/')).reverse

/-- `path.basename` on a clean POSIX path. -/
def basename (s : String) : String :=
  String.mk (basenameChars s.data)

/-- `path.extname`: the substring from the last `.` of the basename; empty
when there is no dot or the only dot is the leading character. -/
def extname (s : String) : String :=
  let b := basenameChars s.data
  let r := b.reverse.takeWhile (fun c => c ≠ '.')
  if r.length = b.length then ""
  else if b.length = r.length + 1 then ""
  else String.mk ('.' :: r.reverse)

/-- `path.join` of two clean path fragments. -/
def pjoin (a b : String) : String :=
  a ++ "/" ++ b

/-- `path.isAbsolute` on POSIX. -/
def isAbsolutePath (s : String) : Bool :=
  strStartsWith s "/"

/-- JS string truthiness: `some ""` and `none` are both falsy. -/
def truthy : Option String → Option String
  | some s => if s = "" then none else some s
  | none => none

/-! ## The redirect table and the installed `fs` overrides
(`bootstrap.js` lines 17–127) -/

/-- One pass of the `Object.entries(assetPathMapGlobal)` loop inside
`getRedirectedPath`: per entry try exact suffix match, then basename match,
then path-segment containment, in that order, before moving to the next
entry. -/
def lookupRedirect : List (String × String) → String → Option String
  | [], _ => none
  | (assetKey, extractedPath) :: rest, normalized =>
    if strEndsWith normalized assetKey then some extractedPath
    else if basename normalized = basename assetKey then some extractedPath
    else if strContains normalized assetKey then some extractedPath
    else lookupRedirect rest normalized

/-- `getRedirectedPath` (`bootstrap.js` lines 33–59).  The requested path is
assumed normalized (POSIX model). -/
def getRedirectedPath (assetPathMap : List (String × String)) (requestedPath : String) :
    Option String :=
  if requestedPath = "" then none
  else lookupRedirect assetPathMap requestedPath

/-- Filesystem state: file contents plus existing directories. -/
structure Fs where
  files : List (String × Bytes)
  dirs : List String
deriving DecidableEq

/-- Un-overridden `fs.existsSync`. -/
def rawExists (fs : Fs) (p : String) : Bool :=
  (fs.files.lookup p).isSome || fs.dirs.contains p

/-- Un-overridden `fs.readFileSync`; `none` models the ENOENT throw. -/
def rawRead (fs : Fs) (p : String) : Option Bytes :=
  fs.files.lookup p

/-- The overridden `fs.existsSync` (`bootstrap.js` lines 62–91), parameterized
by the current redirect table (`assetPathMapGlobal`) and `cacheDirGlobal`. -/
def fsExistsSync (assetPathMap : List (String × String)) (cacheDirGlobal : String)
    (fs : Fs) (filePath : String) : Bool :=
  if filePath = "" then rawExists fs filePath
  else
    match getRedirectedPath assetPathMap filePath with
    | some redirected => rawExists fs redirected
    | none =>
      if strEndsWith filePath ".node" && !(cacheDirGlobal == "") then
        match assetPathMap.find? (fun e => basename e.1 == basename filePath) with
        | some _ =>
          if strStartsWith filePath cacheDirGlobal then rawExists fs filePath
          else false
        | none => rawExists fs filePath
      else rawExists fs filePath

/-- The overridden `fs.readFileSync` (`bootstrap.js` lines 94–100). -/
def fsReadFileSync (assetPathMap : List (String × String)) (fs : Fs)
    (filePath : String) : Option Bytes :=
  match getRedirectedPath assetPathMap filePath with
  | some redirected => rawRead fs redirected
  | none => rawRead fs filePath

/-! ## `resolveEnvVars` (`bootstrap.js` lines 209–226)

Three global regex-replace passes over the string, in source order:
`%VAR%`, then `${VAR}`, then `$VAR`.  Each unresolved (or empty-valued,
because of JS `||`) variable keeps the matched text, and scanning resumes
after the match. -/

/-- Lookup in `process.env` with JS `||` falsiness: an unset variable and an
empty-valued variable both keep the matched text. -/
def envGet (vars : List (String × String)) (name : String) : Option String :=
  truthy (vars.lookup name)

/-- Left brace character (written via its code point). -/
def lbrace : Char := Char.ofNat 123

/-- Right brace character (written via its code point). -/
def rbrace : Char := Char.ofNat 125

/-- The `%VAR%` replacement pass (`/%([^%]+)%/g`), with an explicit step
bound: every recursive call consumes at least one character, so a fuel equal
to the input length (supplied by `winPass`) never runs out. -/
def winPassF (vars : List (String × String)) : Nat → List Char → List Char
  | 0, l => l
  | _, [] => []
  | fuel + 1, c :: cs =>
    if c = '%' then
      let name := cs.takeWhile (fun x => x ≠ '%')
      match cs.dropWhile (fun x => x ≠ '%') with
      | [] => c :: cs
      | _ :: rest' =>
        if name.isEmpty then c :: winPassF vars fuel cs
        else
          match envGet vars (String.mk name) with
          | some v => v.data ++ winPassF vars fuel rest'
          | none => c :: name ++ '%' :: winPassF vars fuel rest'
    else c :: winPassF vars fuel cs

/-- The `%VAR%` replacement pass. -/
def winPass (vars : List (String × String)) (l : List Char) : List Char :=
  winPassF vars l.length l

/-- The `${VAR}` replacement pass (`/\$\{([^}]+)\}/g`), fuelled like
`winPassF`. -/
def bracePassF (vars : List (String × String)) : Nat → List Char → List Char
  | 0, l => l
  | _, [] => []
  | fuel + 1, c :: cs =>
    if c = '$' then
      match cs with
      | d :: ds =>
        if d = lbrace then
          let name := ds.takeWhile (fun x => x ≠ rbrace)
          match ds.dropWhile (fun x => x ≠ rbrace) with
          | [] => c :: cs
          | _ :: rest' =>
            if name.isEmpty then c :: bracePassF vars fuel cs
            else
              match envGet vars (String.mk name) with
              | some v => v.data ++ bracePassF vars fuel rest'
              | none => c :: d :: name ++ rbrace :: bracePassF vars fuel rest'
        else c :: bracePassF vars fuel cs
      | [] => [c]
    else c :: bracePassF vars fuel cs

/-- The `${VAR}` replacement pass. -/
def bracePass (vars : List (String × String)) (l : List Char) : List Char :=
  bracePassF vars l.length l

/-- First character of a `$VAR` identifier: `[A-Za-z_]`. -/
def isIdentStart (c : Char) : Bool :=
  (('A' ≤ c && c ≤ 'Z') || ('a' ≤ c && c ≤ 'z') || c = '_')

/-- Subsequent characters of a `$VAR` identifier: `[A-Za-z0-9_]`. -/
def isIdentChar (c : Char) : Bool :=
  isIdentStart c || ('0' ≤ c && c ≤ '9')

/-- The `$VAR` replacement pass (`/\$([A-Za-z_][A-Za-z0-9_]*)/g`), fuelled
like `winPassF`. -/
def dollarPassF (vars : List (String × String)) : Nat → List Char → List Char
  | 0, l => l
  | _, [] => []
  | fuel + 1, c :: cs =>
    if c = '$' then
      match cs with
      | d :: ds =>
        if isIdentStart d then
          let name := d :: ds.takeWhile isIdentChar
          let rest := ds.dropWhile isIdentChar
          match envGet vars (String.mk name) with
          | some v => v.data ++ dollarPassF vars fuel rest
          | none => c :: name ++ dollarPassF vars fuel rest
        else c :: dollarPassF vars fuel cs
      | [] => [c]
    else c :: dollarPassF vars fuel cs

/-- The `$VAR` replacement pass. -/
def dollarPass (vars : List (String × String)) (l : List Char) : List Char :=
  dollarPassF vars l.length l

/-- `resolveEnvVars` (`bootstrap.js` lines 209–226). -/
def resolveEnvVars (vars : List (String × String)) (pathStr : String) : String :=
  if pathStr = "" then pathStr
  else String.mk (dollarPass vars (bracePass vars (winPass vars pathStr.data)))

/-! ## `getExtractionCacheDir` (`bootstrap.js` lines 237–252) and the target
path of a binary (`bootstrap.js` line 466) -/

/-- The relevant runtime environment. `vars` is the `process.env` map used
for placeholder expansion; the named fields are the specific variables the
cache-dir logic branches on. -/
structure Env where
  seacache : Option String
  localAppData : Option String
  home : Option String
  cwd : String
  vars : List (String × String)
deriving DecidableEq

/-- `getExtractionCacheDir` (`bootstrap.js` lines 237–252). -/
def getExtractionCacheDir (env : Env) (appName appVersion platform arch : String)
    (configuredCacheLocation : Option String) : String :=
  match truthy env.seacache with
  | some s => s
  | none =>
    match truthy configuredCacheLocation with
    | some loc =>
      let resolvedBase := resolveEnvVars env.vars loc
      let absoluteBase :=
        if isAbsolutePath resolvedBase then resolvedBase
        else pjoin env.cwd resolvedBase
      pjoin (pjoin absoluteBase appName) (appVersion ++ "-" ++ platform ++ "-" ++ arch)
    | none =>
      let localAppData :=
        match truthy env.localAppData with
        | some l => l
        | none =>
          match truthy env.home with
          | some h => h
          | none => env.cwd
      pjoin (pjoin (pjoin localAppData ".sea-cache") appName)
        (appVersion ++ "-" ++ platform ++ "-" ++ arch)

/-- One entry of the manifest's `binaries` sequence (`manifest.js` typedef).
`hash` is optional because `generateManifest` copies `asset.hash` unchecked,
and an asset without a hash yields an entry whose `hash` field is
`undefined`. -/
structure BinaryEntry where
  assetKey : String
  fileName : String
  platform : String
  arch : String
  order : Nat
  hash : Option String
deriving DecidableEq, Inhabited

/-- The runtime manifest (`manifest.js` typedef). -/
structure Manifest where
  appName : String
  appVersion : String
  platform : String
  arch : String
  binaries : List BinaryEntry
  allAssetKeys : List String
  cacheLocation : Option String
deriving DecidableEq

/-- The extraction target path of one binary entry: `bootstrap()` computes
`path.join(cacheDir, binary.fileName)` with the cache dir from
`getExtractionCacheDir(manifest.appName, manifest.appVersion,
manifest.platform, manifest.arch, manifest.cacheLocation)`
(`bootstrap.js` lines 454–466). -/
def binaryTargetPath (env : Env) (manifest : Manifest) (fileName : String) : String :=
  pjoin
    (getExtractionCacheDir env manifest.appName manifest.appVersion
      manifest.platform manifest.arch manifest.cacheLocation)
    fileName

/-! ## `extractBinary` (`bootstrap.js` lines 261–303) and the extraction loop
of `bootstrap()` (`bootstrap.js` lines 462–486) -/

/-- `path.dirname` on a clean POSIX path. -/
def dirname (s : String) : String :=
  let b := basenameChars s.data
  if b.length = s.data.length then "."
  else
    let pre := s.data.take (s.data.length - b.length - 1)
    if pre.isEmpty then "/" else String.mk pre

/-- Remove every binding of a key from an association list
(`fs.unlinkSync`). -/
def eraseKey (p : String) : List (String × Bytes) → List (String × Bytes)
  | [] => []
  | e :: rest => if e.1 = p then eraseKey p rest else e :: eraseKey p rest

/-- Overwrite (or create) the binding of a key (`fs.writeFileSync`). -/
def setKey (p : String) (v : Bytes) (l : List (String × Bytes)) :
    List (String × Bytes) :=
  (p, v) :: eraseKey p l

/-- JS object property assignment `obj[key] = value`: replaces the value in
place when the key exists, appends otherwise (JS objects keep insertion
order). -/
def insertAssoc (k v : String) : List (String × String) → List (String × String)
  | [] => [(k, v)]
  | e :: rest => if e.1 = k then (k, v) :: rest else e :: insertAssoc k v rest

/-- A filesystem side effect performed during extraction. -/
inductive FsOp
  | unlink (p : String)
  | write (p : String) (data : Bytes)
  | mkdir (p : String)
  | chmod (p : String)
deriving DecidableEq

/-- Result of `extractBinary` / the extraction loop: the JS function either
returns a value or throws with a message. -/
inductive ExtractResult
  | ok (value : Bool)
  | err (msg : String)
deriving DecidableEq

/-- Final filesystem state, the side effects performed (in order), and the
returned value or thrown error.  A JS throw propagates with the side effects
already performed retained, so `fs` and `ops` are meaningful in the error
case too. -/
structure ExtractOutcome where
  fs : Fs
  ops : List FsOp
  result : ExtractResult
deriving DecidableEq

/-- Render a possibly-`undefined` manifest hash inside an error message. -/
def showHash : Option String → String
  | some h => h
  | none => "undefined"

/-- The fetch-verify-write tail of `extractBinary` (`bootstrap.js` lines
272–302), from `const assetBuffer = sea.getRawAsset(assetKey)` on, starting
from the state and effect list the already-extracted check produced. -/
def extractFetch (assetPathMap : List (String × String)) (cacheDirGlobal : String)
    (sha : Bytes → String) (blob : String → Option Bytes) (isWin32 : Bool)
    (assetKey targetPath : String) (expectedHash : Option String)
    (fs1 : Fs) (ops1 : List FsOp) : ExtractOutcome :=
  -- From `const assetBuffer = sea.getRawAsset(assetKey)` on, starting from
  -- the state and effect list the already-extracted check produced.
  match blob assetKey with
  | none => ⟨fs1, ops1, .err ("Asset not found in SEA blob: " ++ assetKey)⟩
  | some buffer =>
    let actualHash := sha buffer
    if some actualHash = expectedHash then
      let dir := dirname targetPath
      let dirExists := fsExistsSync assetPathMap cacheDirGlobal fs1 dir
      let fs2 : Fs := if dirExists then fs1 else { fs1 with dirs := dir :: fs1.dirs }
      let ops2 := if dirExists then ops1 else ops1 ++ [FsOp.mkdir dir]
      let fs3 : Fs := { fs2 with files := setKey targetPath buffer fs2.files }
      let ops3 := ops2 ++ [FsOp.write targetPath buffer]
      if isWin32 then ⟨fs3, ops3, .ok true⟩
      else ⟨fs3, ops3 ++ [FsOp.chmod targetPath], .ok true⟩
    else
      ⟨fs1, ops1,
        .err ("Integrity check failed for " ++ assetKey ++ ": expected " ++
          showHash expectedHash ++ ", got " ++ actualHash)⟩

/-- `extractBinary` (`bootstrap.js` lines 261–303).

* `assetPathMap`/`cacheDirGlobal` are the interception globals consulted by
  the overridden `fs.existsSync`/`fs.readFileSync` that this function calls
  (`hashFile` reads through the overridden `fs.readFileSync`);
  `fs.unlinkSync`, `fs.mkdirSync`, `fs.writeFileSync` and `fs.chmodSync` are
  not overridden and act on the real state.
* `sha` is the SHA-256 hex digest primitive; `blob` is `sea.getRawAsset`.
* `expectedHash` is `binary.hash` from the manifest and may be `undefined`
  (`none`); a JS `===` comparison of a string digest against `undefined` is
  false. -/
def extractBinary (assetPathMap : List (String × String)) (cacheDirGlobal : String)
    (sha : Bytes → String) (blob : String → Option Bytes) (isWin32 : Bool)
    (fs : Fs) (assetKey targetPath : String) (expectedHash : Option String) :
    ExtractOutcome :=
  let fetchAndWrite :=
    extractFetch assetPathMap cacheDirGlobal sha blob isWin32 assetKey targetPath expectedHash
  if fsExistsSync assetPathMap cacheDirGlobal fs targetPath then
    match fsReadFileSync assetPathMap fs targetPath with
    | none => ⟨fs, [], .err ("ENOENT: read " ++ targetPath)⟩
    | some content =>
      if some (sha content) = expectedHash then ⟨fs, [], .ok true⟩
      else
        if (fs.files.lookup targetPath).isSome then
          fetchAndWrite { fs with files := eraseKey targetPath fs.files }
            [FsOp.unlink targetPath]
        else ⟨fs, [], .err ("ENOENT: unlink " ++ targetPath)⟩
  else fetchAndWrite fs []

/-- Outcome of the whole extraction loop: final filesystem, final redirect
table (`assetPathMapGlobal`), effects in order, and success or the first
thrown error. -/
structure LoopOutcome where
  fs : Fs
  table : List (String × String)
  ops : List FsOp
  result : ExtractResult
deriving DecidableEq

/-- The binary-extraction loop of `bootstrap()` (`bootstrap.js` lines
462–483): for each entry, extract to `path.join(cacheDir, fileName)`, then
record `assetPathMapGlobal[assetKey] = targetPath`.  During the loop
`cacheDirGlobal` is still `''` (it is assigned only after the loop, line
486), so the overrides run with an empty cache-dir guard. -/
def extractLoop (sha : Bytes → String) (blob : String → Option Bytes)
    (isWin32 : Bool) (cacheDir : String) :
    List BinaryEntry → Fs → List (String × String) → LoopOutcome
  | [], fs, table => ⟨fs, table, [], .ok true⟩
  | b :: rest, fs, table =>
    let targetPath := pjoin cacheDir b.fileName
    let o := extractBinary table "" sha blob isWin32 fs b.assetKey targetPath b.hash
    match o.result with
    | .err e => ⟨o.fs, table, o.ops, .err e⟩
    | .ok _ =>
      let table' := insertAssoc b.assetKey targetPath table
      let r := extractLoop sha blob isWin32 cacheDir rest o.fs table'
      ⟨r.fs, r.table, o.ops ++ r.ops, r.result⟩

/-! ## The encryption layer (`crypto-assets.js`) -/

/-- Abstract AES-256-GCM primitive (a platform primitive, not seabox code):
`encF key iv plaintext` is the raw ciphertext, `decF key iv ciphertext` the
raw decryption, and `tagF key iv ciphertext` the authentication tag computed
over the ciphertext.  The GCM contracts (round trip, 16-byte tag,
authenticity) appear as hypotheses of the theorems that need them. -/
structure Gcm where
  encF : Bytes → Bytes → Bytes → Bytes
  decF : Bytes → Bytes → Bytes → Bytes
  tagF : Bytes → Bytes → Bytes → Bytes

/-- `encryptAsset` (`crypto-assets.js` lines 24–42): output layout is
`[IV (16 bytes)] ++ [auth tag (16 bytes)] ++ [ciphertext]`.  The random IV is
a parameter. -/
def encryptAsset (g : Gcm) (key iv data : Bytes) : Bytes :=
  let encrypted := g.encF key iv data
  let authTag := g.tagF key iv encrypted
  iv ++ authTag ++ encrypted

/-- Result of `decryptAsset`: the decrypted bytes, or the
authentication-tag failure thrown by `decipher.final()`. -/
inductive DecryptResult
  | ok (data : Bytes)
  | authError
deriving DecidableEq

/-- `decryptAsset` (`crypto-assets.js` lines 50–67, identical copy at
`bootstrap.js` lines 145–162): slice the IV at `[0,16)`, the auth tag at
`[16,32)`, the ciphertext from 32 on; verify the tag; decrypt. -/
def decryptAsset (g : Gcm) (key encryptedData : Bytes) : DecryptResult :=
  let iv := encryptedData.take 16
  let authTag := (encryptedData.drop 16).take 16
  let encrypted := encryptedData.drop 32
  if g.tagF key iv encrypted = authTag then .ok (g.decF key iv encrypted)
  else .authError

/-- Flip bit `j` of byte `i` of a blob. -/
def flipBit (blob : Bytes) (i j : Nat) : Bytes :=
  blob.set i ((blob.getD i 0) ^^^ (2 ^ j))

/-- One scanned asset (`scanner.js` `AssetEntry` typedef, plus the `content`
and `encrypted` fields `build.js` adds in its encryption step). -/
structure Asset where
  sourcePath : Option String
  assetKey : String
  isBinary : Bool
  hash : Option String
  content : Option Bytes
  encrypted : Bool
deriving DecidableEq, Inhabited

/-- `Map.prototype.set`: overwrite in place when the key exists, append
otherwise. -/
def mapSet (k : String) (v : Bytes) : List (String × Bytes) → List (String × Bytes)
  | [] => [(k, v)]
  | e :: rest => if e.1 = k then (k, v) :: rest else e :: mapSet k v rest

/-- The body of the `encryptAssets` loop (`crypto-assets.js` lines 76–107),
accumulating the `Map`.  `encF` abstracts `encryptAsset(content, key)` with
the build key and its per-call random IV; `readFile` is `fs.readFileSync`. -/
def encryptAssetsGo (encF : Bytes → Bytes) (readFile : String → Bytes)
    (excludePatterns : List String) :
    List Asset → List (String × Bytes) → List (String × Bytes)
  | [], acc => acc
  | a :: rest, acc =>
    if a.isBinary then encryptAssetsGo encF readFile excludePatterns rest acc
    else if excludePatterns.any
        (fun pat => strContains a.assetKey pat || strEndsWith a.assetKey pat) then
      encryptAssetsGo encF readFile excludePatterns rest acc
    else
      let content :=
        match a.content with
        | some c => c
        | none => readFile (a.sourcePath.getD "")
      encryptAssetsGo encF readFile excludePatterns rest
        (mapSet a.assetKey (encF content) acc)

/-- `encryptAssets` (`crypto-assets.js` lines 76–107). -/
def encryptAssets (encF : Bytes → Bytes) (readFile : String → Bytes)
    (assets : List Asset) (excludePatterns : List String) : List (String × Bytes) :=
  encryptAssetsGo encF readFile excludePatterns assets []

/-- The payload-replacement step of `build.js` (lines 105–111): every asset
whose key is in the encrypted map gets its `content` replaced by the
ciphertext and is marked `encrypted`. -/
def applyEncryptedContent (assets : List Asset)
    (encryptedMap : List (String × Bytes)) : List Asset :=
  assets.map fun a =>
    match encryptedMap.lookup a.assetKey with
    | some c => { a with content := some c, encrypted := true }
    | none => a

/-! ## The manifest builder (`manifest.js`) -/

/-- Lower-case a string (`String.prototype.toLowerCase` on ASCII). -/
def strToLower (s : String) : String :=
  String.mk (s.data.map Char.toLower)

/-- `inferExtractionOrder` (`manifest.js` lines 236–251). -/
def inferExtractionOrder (fileName : String) (fallbackIndex : Nat) : Nat :=
  let ext := strToLower (extname fileName)
  if [".dll", ".so", ".dylib"].contains ext then 10
  else if ext = ".node" then 20
  else 100 + fallbackIndex

/-- The configuration fields `generateManifest` reads. -/
structure BuildConfig where
  packageName : Option String
  packageVersion : Option String
  cacheLocation : Option String
deriving DecidableEq

/-- `generateManifest` (`manifest.js` lines 197–227).  Binaries with a `null`
`sourcePath` never reach this function in the pipeline (the scanner always
sets one), so `path.basename(asset.sourcePath)` is modelled on the empty
string in that unreachable case.  Note the function performs no validation:
`hash: asset.hash` is copied as-is (possibly `undefined`), and `binaries`
keeps the input asset order. -/
def generateManifest (assets : List Asset) (config : BuildConfig)
    (targetPlatform targetArch : String) : Manifest :=
  let binaries :=
    (assets.filter (fun a => a.isBinary)).mapIdx fun index asset =>
      let fileName := basename (asset.sourcePath.getD "")
      { assetKey := asset.assetKey
        fileName := fileName
        platform := targetPlatform
        arch := targetArch
        order := inferExtractionOrder fileName index
        hash := asset.hash : BinaryEntry }
  { appName := (truthy config.packageName).getD "app"
    appVersion := (truthy config.packageVersion).getD "1.0.0"
    platform := targetPlatform
    arch := targetArch
    binaries := binaries
    allAssetKeys := assets.map (fun a => a.assetKey)
    cacheLocation := truthy config.cacheLocation }

/-- The runtime platform filter and sort of `bootstrap()` (`bootstrap.js`
lines 445–452): keep the entries matching the current platform/arch (with
`"*"` wildcards), then sort ascending by `order` (JS `Array.prototype.sort`
is stable; insertion sort is the stable sort on lists). -/
def platformBinaries (manifest : Manifest) (procPlatform procArch : String) :
    List BinaryEntry :=
  List.insertionSort (fun a b => a.order ≤ b.order)
    (manifest.binaries.filter fun b =>
      (b.platform == "*" || b.platform == procPlatform) &&
      (b.arch == "*" || b.arch == procArch))

instance : IsTotal BinaryEntry (fun a b => a.order ≤ b.order) :=
  ⟨fun a b => Nat.le_total a.order b.order⟩

instance : IsTrans BinaryEntry (fun a b => a.order ≤ b.order) :=
  ⟨fun _ _ _ h1 h2 => Nat.le_trans h1 h2⟩

/-! ## The scanner (`scanner.js`) -/

/-- `normalizeAssetKey` (`scanner.js` lines 87–89): replace every backslash
by a forward slash. -/
def normalizeAssetKey (filePath : String) : String :=
  String.mk (filePath.data.map fun c => if c = '\\' then '/' else c)

/-- `isBinaryAsset` (`scanner.js` lines 97–110). -/
def isBinaryAsset (filePath : String) (binaryPatterns : List String) : Bool :=
  let ext := strToLower (extname filePath)
  binaryPatterns.any (fun pat => strContains filePath pat || strEndsWith filePath pat) ||
    [".node", ".dll", ".so", ".dylib"].contains ext

/-- `path.resolve(projectRoot, match)` for a clean relative or absolute
match. -/
def resolvePath (root rel : String) : String :=
  if isAbsolutePath rel then rel else pjoin root rel

/-- The asset record built for one glob match (`scanner.js` lines 57–76).
`sha` is the SHA-256 digest and `readFile` the file contents, both platform
primitives. -/
def mkAsset (binPats : List String) (root : String) (sha : Bytes → String)
    (readFile : String → Bytes) (m : String) : Asset :=
  let sourcePath := resolvePath root m
  let isBin := isBinaryAsset m binPats
  { sourcePath := some sourcePath
    assetKey := normalizeAssetKey m
    isBinary := isBin
    hash := if isBin then some (sha (readFile sourcePath)) else none
    content := none
    encrypted := false }

/-- The asset-collection loop of `scanAssets` (`scanner.js` lines 57–76):
`seen` is the `seenKeys` set; a match whose key was already seen is
skipped. -/
def scanLoop (binPats : List String) (root : String) (sha : Bytes → String)
    (readFile : String → Bytes) : List String → List String → List Asset
  | [], _ => []
  | m :: ms, seen =>
    let key := normalizeAssetKey m
    if seen.contains key then scanLoop binPats root sha readFile ms seen
    else mkAsset binPats root sha readFile m ::
      scanLoop binPats root sha readFile ms (key :: seen)

/-- `scanAssets` restricted to its pure core: `globMatches` is the concatenation,
in order, of the glob results of the include patterns (glob resolution is out
of scope). -/
def scanAssets (binPats : List String) (root : String) (sha : Bytes → String)
    (readFile : String → Bytes) (globMatches : List String) : List Asset :=
  scanLoop binPats root sha readFile globMatches []

/-! ## Helper lemmas -/

/-- A key erased from an association list no longer resolves. -/
theorem lookup_eraseKey (p : String) (l : List (String × Bytes)) :
    (eraseKey p l).lookup p = none := by
  induction l with
  | nil => rfl
  | cons e rest ih =>
    by_cases h : e.1 = p
    · simpa [eraseKey, h] using ih
    · have hne : (p == e.1) = false := by
        simp [beq_iff_eq]
        exact fun hc => h hc.symm
      simp [eraseKey, h, List.lookup, hne, ih]

/-- A joined path is never the empty string. -/
theorem pjoin_ne_empty (a b : String) : pjoin a b ≠ "" := by
  intro h
  have hlen := congrArg String.length h
  simp [pjoin, String.length_append] at hlen
  exact absurd hlen.1.2 (by decide)

/-! ## Claim theorems -/

/-- **C3, counterexample.**  The claim states that for every populated
redirect table containing entries `A` and `B`, an exists check on any path
whose basename equals `A`'s basename returns the existence state of `A`'s
extracted path.  With the table `{B: "/c/b.node", A: "/c/xb.node"}`
(insertion order `B` then `A`, keys `B = "b.node"`, `A = "pkg/xb.node"`) and
the request `"dir/xb.node"` — whose basename `"xb.node"` equals `A`'s key's
basename — `getRedirectedPath` first tries entry `B`, whose key `"b.node"`
is a string suffix of `"dir/xb.node"`, and redirects to `"/c/b.node"`: the
override returns `true` (that file exists) although `A`'s extracted path
`"/c/xb.node"` does not exist. -/
theorem claim_C3_counterexample :
    basename "dir/xb.node" = basename "pkg/xb.node" ∧
    fsExistsSync [("b.node", "/c/b.node"), ("pkg/xb.node", "/c/xb.node")] ""
      ⟨[("/c/b.node", [0])], []⟩ "dir/xb.node" = true ∧
    rawExists ⟨[("/c/b.node", [0])], []⟩ "/c/xb.node" = false :=
  ⟨by decide, by decide, by decide⟩

/-- **C3, amended.**  The overridden `fs.existsSync` returns the existence
state of the extracted path of the first table entry that matches the
request (each entry is tried by exact suffix, then basename, then substring,
in table iteration order).  In particular, when `A` is the table's *first*
entry, every nonempty request whose basename equals `A`'s key's basename
returns the existence state of `pathA`, not of the literal requested path. -/
theorem claim_C3_amended (A pathA : String) (rest : List (String × String))
    (cacheDirGlobal : String) (fs : Fs) (req : String)
    (hreq : req ≠ "") (hbase : basename req = basename A) :
    fsExistsSync ((A, pathA) :: rest) cacheDirGlobal fs req = rawExists fs pathA := by
  have hred : getRedirectedPath ((A, pathA) :: rest) req = some pathA := by
    unfold getRedirectedPath lookupRedirect
    by_cases hend : strEndsWith req A
    · simp [hreq, hend]
    · simp [hreq, hend, hbase]
  unfold fsExistsSync
  simp [hreq, hred]

/-- **C3, witness for the amended theorem.** -/
theorem claim_C3_amended_witness :
    ("n/a.node" : String) ≠ "" ∧
    basename "n/a.node" = basename "pkg/a.node" ∧
    fsExistsSync [("pkg/a.node", "/c/a.node"), ("b.node", "/c/b.node")] ""
      ⟨[("/c/a.node", [1])], []⟩ "n/a.node" =
      rawExists ⟨[("/c/a.node", [1])], []⟩ "/c/a.node" :=
  ⟨by decide, by decide,
    claim_C3_amended "pkg/a.node" "/c/a.node" [("b.node", "/c/b.node")] ""
      ⟨[("/c/a.node", [1])], []⟩ "n/a.node" (by decide) (by decide)⟩

/-- **C2 (confirmed).**  If the bytes fetched from the embedded blob hash
differently from the manifest's recorded hash, `extractBinary` throws the
fatal integrity error and performs no write: mismatching bytes are never
written to the cache path.  The `hreach` hypothesis states that the
already-extracted branch does not return early (the cache file, as seen
through the overridden `fs`, is either absent or stale and unlinkable),
which is the only situation in which the blob bytes are fetched at all. -/
theorem claim_C2_integrity_no_write
    (assetPathMap : List (String × String)) (cacheDirGlobal : String)
    (sha : Bytes → String) (blob : String → Option Bytes) (isWin32 : Bool)
    (fs : Fs) (assetKey targetPath : String) (expectedHash : Option String)
    (buffer : Bytes)
    (hblob : blob assetKey = some buffer)
    (hmism : some (sha buffer) ≠ expectedHash)
    (hreach : fsExistsSync assetPathMap cacheDirGlobal fs targetPath = true →
      ∃ c, fsReadFileSync assetPathMap fs targetPath = some c ∧
        some (sha c) ≠ expectedHash ∧ (fs.files.lookup targetPath).isSome = true) :
    (extractBinary assetPathMap cacheDirGlobal sha blob isWin32 fs
      assetKey targetPath expectedHash).result =
      .err ("Integrity check failed for " ++ assetKey ++ ": expected " ++
        showHash expectedHash ++ ", got " ++ sha buffer) ∧
    ∀ p d, FsOp.write p d ∉
      (extractBinary assetPathMap cacheDirGlobal sha blob isWin32 fs
        assetKey targetPath expectedHash).ops := by
  have hfetch : ∀ fs1 ops1,
      extractFetch assetPathMap cacheDirGlobal sha blob isWin32 assetKey
        targetPath expectedHash fs1 ops1 =
      ⟨fs1, ops1, .err ("Integrity check failed for " ++ assetKey ++ ": expected " ++
        showHash expectedHash ++ ", got " ++ sha buffer)⟩ := by
    intro fs1 ops1
    unfold extractFetch
    simp [hblob, hmism]
  unfold extractBinary
  by_cases hex : fsExistsSync assetPathMap cacheDirGlobal fs targetPath
  · obtain ⟨c, hc, hcm, hlk⟩ := hreach hex
    simp only [hex, if_true, hc, hcm, if_neg hcm, hlk, if_true, hfetch]
    exact ⟨by simp, fun p d hmem => by simp at hmem⟩
  · simp only [hex, Bool.false_eq_true, if_false, hfetch]
    exact ⟨by simp, fun p d hmem => by simp at hmem⟩

/-- **C2, witness.** -/
theorem claim_C2_integrity_no_write_witness :
    (fun k => if k = "a.node" then some ([9] : Bytes) else none) "a.node" = some [9] ∧
    some ((fun b => if b = ([9] : Bytes) then "H9" else "HX") [9]) ≠ some "H1" ∧
    ((extractBinary [] "" (fun b => if b = ([9] : Bytes) then "H9" else "HX")
        (fun k => if k = "a.node" then some ([9] : Bytes) else none) false
        ⟨[], ["/c"]⟩ "a.node" "/c/a.node" (some "H1")).result =
      .err ("Integrity check failed for " ++ "a.node" ++ ": expected " ++
        showHash (some "H1") ++ ", got " ++
        (fun b => if b = ([9] : Bytes) then "H9" else "HX") [9]) ∧
      ∀ p d, FsOp.write p d ∉
        (extractBinary [] "" (fun b => if b = ([9] : Bytes) then "H9" else "HX")
          (fun k => if k = "a.node" then some ([9] : Bytes) else none) false
          ⟨[], ["/c"]⟩ "a.node" "/c/a.node" (some "H1")).ops) :=
  ⟨by decide, by decide,
    claim_C2_integrity_no_write [] ""
      (fun b => if b = ([9] : Bytes) then "H9" else "HX")
      (fun k => if k = "a.node" then some ([9] : Bytes) else none) false
      ⟨[], ["/c"]⟩ "a.node" "/c/a.node" (some "H1") [9]
      (by decide) (by decide)
      (by intro h; exact absurd h (by decide))⟩

/-- **C10 (confirmed).**  When the cached file exists but is stale (its
content, read through the overridden `fs`, hashes differently from the
manifest hash), `extractBinary` unlinks it *before* fetching the blob bytes;
if those bytes then also fail the integrity check, the error propagates with
the cache path already deleted — the error path does not preserve the prior
cache state. -/
theorem claim_C10_stale_unlink_before_fetch
    (assetPathMap : List (String × String)) (cacheDirGlobal : String)
    (sha : Bytes → String) (blob : String → Option Bytes) (isWin32 : Bool)
    (fs : Fs) (assetKey targetPath : String) (expectedHash : Option String)
    (c buffer : Bytes)
    (hex : fsExistsSync assetPathMap cacheDirGlobal fs targetPath = true)
    (hrd : fsReadFileSync assetPathMap fs targetPath = some c)
    (hstale : some (sha c) ≠ expectedHash)
    (hlk : (fs.files.lookup targetPath).isSome = true)
    (hblob : blob assetKey = some buffer)
    (hmism : some (sha buffer) ≠ expectedHash) :
    (extractBinary assetPathMap cacheDirGlobal sha blob isWin32 fs
      assetKey targetPath expectedHash).result =
      .err ("Integrity check failed for " ++ assetKey ++ ": expected " ++
        showHash expectedHash ++ ", got " ++ sha buffer) ∧
    (extractBinary assetPathMap cacheDirGlobal sha blob isWin32 fs
      assetKey targetPath expectedHash).ops = [FsOp.unlink targetPath] ∧
    ((extractBinary assetPathMap cacheDirGlobal sha blob isWin32 fs
      assetKey targetPath expectedHash).fs).files.lookup targetPath = none := by
  have hfetch : ∀ fs1 ops1,
      extractFetch assetPathMap cacheDirGlobal sha blob isWin32 assetKey
        targetPath expectedHash fs1 ops1 =
      ⟨fs1, ops1, .err ("Integrity check failed for " ++ assetKey ++ ": expected " ++
        showHash expectedHash ++ ", got " ++ sha buffer)⟩ := by
    intro fs1 ops1
    unfold extractFetch
    simp [hblob, hmism]
  unfold extractBinary
  simp only [hex, if_true, hrd, if_neg hstale, hlk, if_true, hfetch]
  exact ⟨by simp, by simp, by simp [lookup_eraseKey]⟩

/-- **C10, witness.** -/
theorem claim_C10_stale_unlink_before_fetch_witness :
    fsExistsSync [] "" ⟨[("/c/a.node", [3])], ["/c"]⟩ "/c/a.node" = true ∧
    fsReadFileSync [] ⟨[("/c/a.node", [3])], ["/c"]⟩ "/c/a.node" = some [3] ∧
    some ((fun b => if b = ([9] : Bytes) then "H9" else "HX") [3]) ≠ some "H1" ∧
    (([("/c/a.node", [3])] : List (String × Bytes)).lookup "/c/a.node").isSome = true ∧
    (fun k => if k = "a.node" then some ([9] : Bytes) else none) "a.node" = some [9] ∧
    some ((fun b => if b = ([9] : Bytes) then "H9" else "HX") [9]) ≠ some "H1" ∧
    ((extractBinary [] "" (fun b => if b = ([9] : Bytes) then "H9" else "HX")
        (fun k => if k = "a.node" then some ([9] : Bytes) else none) false
        ⟨[("/c/a.node", [3])], ["/c"]⟩ "a.node" "/c/a.node" (some "H1")).result =
      .err ("Integrity check failed for " ++ "a.node" ++ ": expected " ++
        showHash (some "H1") ++ ", got " ++
        (fun b => if b = ([9] : Bytes) then "H9" else "HX") [9]) ∧
     (extractBinary [] "" (fun b => if b = ([9] : Bytes) then "H9" else "HX")
        (fun k => if k = "a.node" then some ([9] : Bytes) else none) false
        ⟨[("/c/a.node", [3])], ["/c"]⟩ "a.node" "/c/a.node" (some "H1")).ops =
      [FsOp.unlink "/c/a.node"] ∧
     ((extractBinary [] "" (fun b => if b = ([9] : Bytes) then "H9" else "HX")
        (fun k => if k = "a.node" then some ([9] : Bytes) else none) false
        ⟨[("/c/a.node", [3])], ["/c"]⟩ "a.node" "/c/a.node" (some "H1")).fs).files.lookup
        "/c/a.node" = none) :=
  ⟨by decide, by decide, by decide, by decide, by decide, by decide,
    claim_C10_stale_unlink_before_fetch [] ""
      (fun b => if b = ([9] : Bytes) then "H9" else "HX")
      (fun k => if k = "a.node" then some ([9] : Bytes) else none) false
      ⟨[("/c/a.node", [3])], ["/c"]⟩ "a.node" "/c/a.node" (some "H1") [3] [9]
      (by decide) (by decide) (by decide) (by decide) (by decide) (by decide)⟩

/-! ## Claim C1: idempotent extraction -/

/-- The redirect table (`assetPathMapGlobal`) after the loop has processed
the given entries, starting from `table`. -/
def tableAfter (cacheDir : String) (entries : List BinaryEntry)
    (table : List (String × String)) : List (String × String) :=
  entries.foldl (fun t b => insertAssoc b.assetKey (pjoin cacheDir b.fileName) t) table

/-- Toy hash primitive for the C1 scenario. -/
def shaC1 : Bytes → String :=
  fun b => if b = [1] then "h1" else if b = [2] then "h2" else "hx"

/-- Toy blob for the C1 scenario. -/
def blobC1 : String → Option Bytes :=
  fun k => if k = "g.node" then some [1] else if k = "bigg.node" then some [2] else none

/-- Fully populated, valid cache for the C1 scenario. -/
def fsC1 : Fs := ⟨[("/c/g.node", [1]), ("/c/bigg.node", [2])], ["/c"]⟩

/-- First manifest entry of the C1 scenario (a root-level asset, so its key
equals its file name). -/
def entryG : BinaryEntry := ⟨"g.node", "g.node", "linux", "x64", 20, some "h1"⟩

/-- Second manifest entry of the C1 scenario; its file name ends (as a
string) with the first entry's asset key. -/
def entryBigg : BinaryEntry := ⟨"bigg.node", "bigg.node", "linux", "x64", 20, some "h2"⟩

/-- **C1, counterexample.**  The cache is fully populated: each entry's
cache file exists and its hash equals the manifest's recorded hash.  The
claim then demands zero unlinks and zero writes.  But while processing the
second entry, `extractBinary`'s `fs.existsSync`/`hashFile` calls go through
the overridden `fs`, whose redirect table already holds the first entry's
key `"g.node"` — a string suffix of `"/c/bigg.node"` — so the staleness
check reads the *first* entry's file, sees hash `"h1" ≠ "h2"`, and the run
unlinks and rewrites `/c/bigg.node`. -/
theorem claim_C1_counterexample :
    (fsC1.files.lookup (pjoin "/c" entryG.fileName) = some [1] ∧
      some (shaC1 [1]) = entryG.hash) ∧
    (fsC1.files.lookup (pjoin "/c" entryBigg.fileName) = some [2] ∧
      some (shaC1 [2]) = entryBigg.hash) ∧
    (extractLoop shaC1 blobC1 false "/c" [entryG, entryBigg] fsC1 []).ops =
      [FsOp.unlink "/c/bigg.node", FsOp.write "/c/bigg.node" [2],
        FsOp.chmod "/c/bigg.node"] ∧
    (extractLoop shaC1 blobC1 false "/c" [entryG, entryBigg] fsC1 []).result =
      .ok true := by
  decide

/-- `extractBinary`, called with the empty `cacheDirGlobal` the loop runs
under, is a no-op on a valid cache entry, provided the redirect table does
not divert the target path to a different file. -/
theorem extractBinary_valid_noop (table : List (String × String))
    (sha : Bytes → String) (blob : String → Option Bytes) (isWin32 : Bool)
    (fs : Fs) (assetKey targetPath : String) (expectedHash : Option String)
    (c : Bytes)
    (htp : targetPath ≠ "")
    (hred : getRedirectedPath table targetPath = none ∨
      getRedirectedPath table targetPath = some targetPath)
    (hlk : fs.files.lookup targetPath = some c)
    (hsha : some (sha c) = expectedHash) :
    extractBinary table "" sha blob isWin32 fs assetKey targetPath expectedHash =
      ⟨fs, [], .ok true⟩ := by
  have hex : fsExistsSync table "" fs targetPath = true := by
    unfold fsExistsSync
    rcases hred with h | h
    · simp [htp, h, rawExists, hlk]
    · simp [htp, h, rawExists, hlk]
  have hrd : fsReadFileSync table fs targetPath = some c := by
    unfold fsReadFileSync
    rcases hred with h | h
    · simp [h, rawRead, hlk]
    · simp [h, rawRead, hlk]
  unfold extractBinary
  simp [hex, hrd, hsha]

/-- `List.getD` on a cons at a successor index. -/
theorem getD_cons_succ (b : BinaryEntry) (rest : List BinaryEntry) (k : Nat) :
    (b :: rest).getD (k + 1) default = rest.getD k default := by
  simp [List.getD]

/-- **C1, amended.**  Running the extraction loop against a cache in which
every entry's file is present with the manifest's recorded hash performs no
unlink, no write (no side effect at all) and succeeds — *provided* the
redirect table built from the previously processed entries leaves every
entry's target path alone (it yields nothing or the target path itself).
The counterexample shows the claim fails without that proviso, because the
staleness check runs through the overridden `fs`. -/
theorem claim_C1_amended (sha : Bytes → String) (blob : String → Option Bytes)
    (isWin32 : Bool) (cacheDir : String) (entries : List BinaryEntry)
    (fs : Fs) (table : List (String × String))
    (hval : ∀ k, k < entries.length →
      ((fs.files.lookup (pjoin cacheDir ((entries.getD k default).fileName))).isSome = true ∧
        (fs.files.lookup (pjoin cacheDir ((entries.getD k default).fileName))).map sha =
          (entries.getD k default).hash))
    (hnr : ∀ k, k < entries.length →
      (getRedirectedPath (tableAfter cacheDir (entries.take k) table)
          (pjoin cacheDir ((entries.getD k default).fileName)) = none ∨
        getRedirectedPath (tableAfter cacheDir (entries.take k) table)
          (pjoin cacheDir ((entries.getD k default).fileName)) =
          some (pjoin cacheDir ((entries.getD k default).fileName)))) :
    extractLoop sha blob isWin32 cacheDir entries fs table =
      ⟨fs, tableAfter cacheDir entries table, [], .ok true⟩ := by
  induction entries generalizing table with
  | nil => rfl
  | cons b rest ih =>
    obtain ⟨hsome, hmap⟩ := hval 0 (by simp)
    have h0nr := hnr 0 (by simp)
    simp only [List.getD_cons_zero, List.take_zero] at hsome hmap h0nr
    cases hc : fs.files.lookup (pjoin cacheDir b.fileName) with
    | none => rw [hc] at hsome; simp at hsome
    | some c =>
      have hsha : some (sha c) = b.hash := by
        rw [hc] at hmap; simpa using hmap
      have htp : pjoin cacheDir b.fileName ≠ "" := pjoin_ne_empty cacheDir b.fileName
      have hred : getRedirectedPath table (pjoin cacheDir b.fileName) = none ∨
          getRedirectedPath table (pjoin cacheDir b.fileName) =
            some (pjoin cacheDir b.fileName) := by
        simpa [tableAfter] using h0nr
      have hb := extractBinary_valid_noop table sha blob isWin32 fs b.assetKey
        (pjoin cacheDir b.fileName) b.hash c htp hred hc hsha
      have hval' : ∀ k, k < rest.length →
          ((fs.files.lookup (pjoin cacheDir ((rest.getD k default).fileName))).isSome = true ∧
            (fs.files.lookup (pjoin cacheDir ((rest.getD k default).fileName))).map sha =
              (rest.getD k default).hash) := by
        intro k hk
        have := hval (k + 1) (by simpa using Nat.succ_lt_succ hk)
        simpa [getD_cons_succ] using this
      have hnr' : ∀ k, k < rest.length →
          (getRedirectedPath
              (tableAfter cacheDir (rest.take k)
                (insertAssoc b.assetKey (pjoin cacheDir b.fileName) table))
              (pjoin cacheDir ((rest.getD k default).fileName)) = none ∨
            getRedirectedPath
              (tableAfter cacheDir (rest.take k)
                (insertAssoc b.assetKey (pjoin cacheDir b.fileName) table))
              (pjoin cacheDir ((rest.getD k default).fileName)) =
              some (pjoin cacheDir ((rest.getD k default).fileName))) := by
        intro k hk
        have := hnr (k + 1) (by simpa using Nat.succ_lt_succ hk)
        simpa [getD_cons_succ, List.take_succ_cons, tableAfter] using this
      have hrec := ih (insertAssoc b.assetKey (pjoin cacheDir b.fileName) table)
        hval' hnr'
      simp only [extractLoop, hb, hrec]
      rfl

/-- Two entries with unrelated names for the C1 witness scenario. -/
def entriesNoClash : List BinaryEntry :=
  [⟨"a.node", "a.node", "linux", "x64", 20, some "h1"⟩,
    ⟨"b.node", "b.node", "linux", "x64", 20, some "h2"⟩]

/-- Fully populated valid cache for the C1 witness scenario
(`shaC1 [1] = "h1"`, `shaC1 [2] = "h2"`). -/
def fsNoClash : Fs := ⟨[("/c/a.node", [1]), ("/c/b.node", [2])], ["/c"]⟩

/-- **C1, witness for the amended theorem** (two entries with unrelated
names, fully populated valid cache: the second run is a strict no-op). -/
theorem claim_C1_amended_witness :
    (∀ k, k < entriesNoClash.length →
      ((fsNoClash.files.lookup
          (pjoin "/c" ((entriesNoClash.getD k default).fileName))).isSome = true ∧
        (fsNoClash.files.lookup
          (pjoin "/c" ((entriesNoClash.getD k default).fileName))).map shaC1 =
          (entriesNoClash.getD k default).hash)) ∧
    extractLoop shaC1 blobC1 false "/c" entriesNoClash fsNoClash [] =
      ⟨fsNoClash, tableAfter "/c" entriesNoClash [], [], .ok true⟩ :=
  ⟨by decide,
    claim_C1_amended shaC1 blobC1 false "/c" entriesNoClash fsNoClash []
      (by decide) (by decide)⟩

/-! ## Claim C4: encryption round trip and bit-flip rejection -/

/-- XOR with a power of two always changes a natural number. -/
theorem xor_two_pow_ne (x j : Nat) : x ^^^ 2 ^ j ≠ x := by
  intro h
  have h2 : x ^^^ (x ^^^ 2 ^ j) = x ^^^ x := by rw [h]
  rw [← Nat.xor_assoc, Nat.xor_self, Nat.zero_xor] at h2
  exact (Nat.two_pow_pos j).ne' h2

/-- Flipping one bit of an in-range byte changes the list. -/
theorem set_flip_ne (l : Bytes) (i j : Nat) (h : i < l.length) :
    l.set i (l.getD i 0 ^^^ 2 ^ j) ≠ l := by
  intro heq
  have h1 : (l.set i (l.getD i 0 ^^^ 2 ^ j)).getD i 0 = l.getD i 0 ^^^ 2 ^ j := by
    simp [List.getD, List.getElem?_set_eq_of_lt _ h]
  have h2 := congrArg (fun t => t.getD i 0) heq
  simp only at h2
  rw [h1] at h2
  exact xor_two_pow_ne _ j h2

/-- `decryptAsset` on a well-formed `iv ++ tag ++ ct` layout slices the three
fields back apart. -/
theorem decryptAsset_layout (g : Gcm) (key iv tag ct : Bytes)
    (hiv : iv.length = 16) (htag : tag.length = 16) :
    decryptAsset g key (iv ++ (tag ++ ct)) =
      (if g.tagF key iv ct = tag then .ok (g.decF key iv ct)
       else .authError) := by
  have h16 : (iv ++ (tag ++ ct)).take 16 = iv := List.take_left' hiv
  have hd16 : (iv ++ (tag ++ ct)).drop 16 = tag ++ ct := List.drop_left' hiv
  have h32 : (iv ++ (tag ++ ct)).drop 32 = ct := by
    have hdd : (iv ++ (tag ++ ct)).drop 32 = ((iv ++ (tag ++ ct)).drop 16).drop 16 := by
      rw [List.drop_drop]
    rw [hdd, hd16, List.drop_left' htag]
  simp only [decryptAsset, h16, hd16, h32, List.take_left' htag]

/-- **C4 (confirmed under the GCM contract).**  For the authenticated cipher
contract — decryption inverts encryption, the tag is 16 bytes, and the tag
value determines the `(iv, ciphertext)` pair (GCM authenticity) — the seabox
layout `encryptAsset`/`decryptAsset` round-trips every plaintext, and every
single-bit flip anywhere in the output blob (IV, tag, or ciphertext region)
makes `decryptAsset` fail with the authentication error instead of returning
plaintext. -/
theorem claim_C4_roundtrip_and_bitflip (g : Gcm) (key iv p : Bytes)
    (hiv : iv.length = 16)
    (htag : (g.tagF key iv (g.encF key iv p)).length = 16)
    (hdec : g.decF key iv (g.encF key iv p) = p)
    (hauth : ∀ iv2 ct2, g.tagF key iv2 ct2 = g.tagF key iv (g.encF key iv p) →
      iv2 = iv ∧ ct2 = g.encF key iv p) :
    decryptAsset g key (encryptAsset g key iv p) = .ok p ∧
    ∀ i j, i < (encryptAsset g key iv p).length →
      decryptAsset g key (flipBit (encryptAsset g key iv p) i j) = .authError := by
  have henc : encryptAsset g key iv p =
      iv ++ (g.tagF key iv (g.encF key iv p) ++ g.encF key iv p) := by
    simp [encryptAsset]
  constructor
  · rw [henc, decryptAsset_layout g key _ _ _ hiv htag, if_pos rfl, hdec]
  · intro i j hi
    rw [henc] at hi ⊢
    set tag := g.tagF key iv (g.encF key iv p) with htagdef
    set ct := g.encF key iv p with hctdef
    by_cases h1 : i < 16
    · -- flip inside the IV
      have h1' : i < iv.length := by omega
      have hset : flipBit (iv ++ (tag ++ ct)) i j =
          iv.set i (iv.getD i 0 ^^^ 2 ^ j) ++ (tag ++ ct) := by
        unfold flipBit
        rw [List.set_append, List.getD_append _ _ _ _ h1']
        simp [h1']
      rw [hset, decryptAsset_layout g key _ _ _ (by simp [hiv]) htag]
      rw [if_neg]
      intro hc
      exact absurd (hauth _ _ hc).1 (set_flip_ne iv i j h1')
    · by_cases h2 : i < 32
      · -- flip inside the auth tag
        have h1' : ¬ i < iv.length := by omega
        have hlt : i - 16 < tag.length := by omega
        have hstep1 : flipBit (iv ++ (tag ++ ct)) i j =
            iv ++ ((tag ++ ct).set (i - 16) (tag.getD (i - 16) 0 ^^^ 2 ^ j)) := by
          unfold flipBit
          have hg1 : (iv ++ (tag ++ ct)).getD i 0 = (tag ++ ct).getD (i - iv.length) 0 :=
            List.getD_append_right _ _ _ _ (by omega)
          have hg2 : (tag ++ ct).getD (i - iv.length) 0 = tag.getD (i - 16) 0 := by
            rw [hiv]
            exact List.getD_append _ _ _ _ (by omega)
          rw [hg1, hg2, List.set_append]
          simp [hiv, h1]
        have hstep2 : (tag ++ ct).set (i - 16) (tag.getD (i - 16) 0 ^^^ 2 ^ j) =
            tag.set (i - 16) (tag.getD (i - 16) 0 ^^^ 2 ^ j) ++ ct := by
          rw [List.set_append]
          simp [hlt]
        rw [hstep1, hstep2,
          decryptAsset_layout g key _ _ _ hiv (by simpa using htag)]
        rw [if_neg]
        intro hc
        exact absurd hc.symm (set_flip_ne tag (i - 16) j hlt)
      · -- flip inside the ciphertext
        have hilen : i < 16 + (16 + ct.length) := by
          simpa [List.length_append, hiv, htag] using hi
        have hlt : i - 32 < ct.length := by omega
        have hi32 : i - 16 - 16 = i - 32 := by omega
        have hstep1 : flipBit (iv ++ (tag ++ ct)) i j =
            iv ++ ((tag ++ ct).set (i - 16) (ct.getD (i - 32) 0 ^^^ 2 ^ j)) := by
          unfold flipBit
          have hg1 : (iv ++ (tag ++ ct)).getD i 0 = (tag ++ ct).getD (i - iv.length) 0 :=
            List.getD_append_right _ _ _ _ (by omega)
          have hg2 : (tag ++ ct).getD (i - iv.length) 0 = ct.getD (i - 32) 0 := by
            rw [hiv]
            have := List.getD_append_right tag ct 0 (i - 16) (by omega)
            rw [this, htag, hi32]
          rw [hg1, hg2, List.set_append]
          simp [hiv, h1]
        have hstep2 : (tag ++ ct).set (i - 16) (ct.getD (i - 32) 0 ^^^ 2 ^ j) =
            tag ++ ct.set (i - 32) (ct.getD (i - 32) 0 ^^^ 2 ^ j) := by
          rw [List.set_append]
          have hcond16 : ¬ i - 16 < 16 := by omega
          simp [htag, hcond16, hi32]
        rw [hstep1, hstep2, decryptAsset_layout g key _ _ _ hiv htag]
        rw [if_neg]
        intro hc
        exact absurd (hauth _ _ hc).2 (set_flip_ne ct (i - 32) j hlt)

/-- Concrete IV for the C4 witness. -/
def ivW : Bytes := List.replicate 16 0

/-- Concrete plaintext for the C4 witness. -/
def ptW : Bytes := [7, 7, 7]

/-- Concrete key for the C4 witness. -/
def keyW : Bytes := List.replicate 32 5

/-- A toy authenticated cipher satisfying the GCM contract at the witness
point: the tag is `replicate 16 1` exactly on the pair `(ivW, ptW)` and
`replicate 16 2` everywhere else. -/
def gcmW : Gcm :=
  ⟨fun _ _ pt => pt, fun _ _ ctx => ctx,
    fun _ iv2 ct2 =>
      if iv2 = List.replicate 16 0 ∧ ct2 = [7, 7, 7] then List.replicate 16 1
      else List.replicate 16 2⟩

/-- The toy cipher's tag determines the `(iv, ciphertext)` pair at the
witness point. -/
theorem gcmW_auth : ∀ iv2 ct2,
    gcmW.tagF keyW iv2 ct2 = gcmW.tagF keyW ivW (gcmW.encF keyW ivW ptW) →
    iv2 = ivW ∧ ct2 = gcmW.encF keyW ivW ptW := by
  intro iv2 ct2 h
  by_cases hc : iv2 = List.replicate 16 0 ∧ ct2 = [7, 7, 7]
  · exact ⟨hc.1, hc.2⟩
  · exfalso
    simp only [gcmW, if_neg hc] at h
    exact absurd h (by decide)

/-- **C4, witness.** -/
theorem claim_C4_witness :
    ivW.length = 16 ∧
    (gcmW.tagF keyW ivW (gcmW.encF keyW ivW ptW)).length = 16 ∧
    gcmW.decF keyW ivW (gcmW.encF keyW ivW ptW) = ptW ∧
    (decryptAsset gcmW keyW (encryptAsset gcmW keyW ivW ptW) = .ok ptW ∧
      ∀ i j, i < (encryptAsset gcmW keyW ivW ptW).length →
        decryptAsset gcmW keyW (flipBit (encryptAsset gcmW keyW ivW ptW) i j) =
          .authError) :=
  ⟨by decide, by decide, rfl,
    claim_C4_roundtrip_and_bitflip gcmW keyW ivW ptW (by decide) (by decide) rfl
      gcmW_auth⟩

/-! ## Claim C5: binaries are never encrypted -/

/-- `Map.set` with a different key does not change a lookup. -/
theorem lookup_mapSet_ne (j : String) (v : Bytes) (l : List (String × Bytes))
    (k : String) (h : k ≠ j) : (mapSet j v l).lookup k = l.lookup k := by
  induction l with
  | nil => simp [mapSet, List.lookup, beq_eq_false_iff_ne.mpr h]
  | cons e rest ih =>
    by_cases he : e.1 = j
    · have h1 : (k == j) = false := beq_eq_false_iff_ne.mpr h
      have h2 : (k == e.1) = false := by rw [he]; exact h1
      simp [mapSet, if_pos he, List.lookup, h1, h2]
    · simp only [mapSet, if_neg he, List.lookup]
      cases hkk : k == e.1
      · simpa [hkk] using ih
      · simp [hkk]

/-- Keys that never occur in the remaining assets are untouched by the
`encryptAssets` loop. -/
theorem lookup_encryptAssetsGo_not_mem (encF : Bytes → Bytes)
    (readFile : String → Bytes) (pats : List String) (assets : List Asset)
    (acc : List (String × Bytes)) (k : String)
    (h : k ∉ assets.map (fun a => a.assetKey)) :
    (encryptAssetsGo encF readFile pats assets acc).lookup k = acc.lookup k := by
  induction assets generalizing acc with
  | nil => rfl
  | cons a rest ih =>
    have hk : k ≠ a.assetKey := by
      intro hkk
      exact h (by simp [hkk])
    have hrest : k ∉ rest.map (fun a => a.assetKey) := by
      intro hm
      exact h (by simp [hm])
    unfold encryptAssetsGo
    by_cases hb : a.isBinary
    · simpa [hb] using ih acc hrest
    · by_cases hx : pats.any
        (fun pat => strContains a.assetKey pat || strEndsWith a.assetKey pat)
      · simpa [hb, hx] using ih acc hrest
      · simp only [hb, hx, Bool.false_eq_true, if_false]
        rw [ih _ hrest]
        exact lookup_mapSet_ne a.assetKey _ acc k hk

/-- Within a build whose asset keys are unique, a binary asset's key never
enters the encrypted map. -/
theorem binary_key_not_encrypted (encF : Bytes → Bytes)
    (readFile : String → Bytes) (pats : List String) (assets : List Asset)
    (hnd : (assets.map (fun a => a.assetKey)).Nodup)
    (a : Asset) (ha : a ∈ assets) (hbin : a.isBinary = true) :
    (encryptAssets encF readFile assets pats).lookup a.assetKey = none := by
  unfold encryptAssets
  suffices h : ∀ acc : List (String × Bytes), acc.lookup a.assetKey = none →
      (encryptAssetsGo encF readFile pats assets acc).lookup a.assetKey = none by
    exact h [] rfl
  induction assets with
  | nil => exact absurd ha (by simp)
  | cons x rest ih =>
    intro acc hacc
    have hnd' : (rest.map (fun a => a.assetKey)).Nodup := (List.nodup_cons.mp hnd).2
    have hhead : x.assetKey ∉ rest.map (fun a => a.assetKey) :=
      (List.nodup_cons.mp hnd).1
    rcases List.mem_cons.mp ha with rfl | hmem
    · unfold encryptAssetsGo
      rw [if_pos hbin]
      exact (lookup_encryptAssetsGo_not_mem encF readFile pats rest acc _ hhead).trans hacc
    · have hkey : a.assetKey ∈ rest.map (fun a => a.assetKey) :=
        List.mem_map.mpr ⟨a, hmem, rfl⟩
      unfold encryptAssetsGo
      by_cases hb : x.isBinary
      · simpa [hb] using ih hnd' hmem acc hacc
      · by_cases hx : pats.any
          (fun pat => strContains x.assetKey pat || strEndsWith x.assetKey pat)
        · simpa [hb, hx] using ih hnd' hmem acc hacc
        · simp only [hb, hx, Bool.false_eq_true, if_false]
          refine ih hnd' hmem _ ?_
          rw [lookup_mapSet_ne x.assetKey _ acc a.assetKey ?_, hacc]
          intro he
          exact hhead (he ▸ hkey)

/-- **C5 (confirmed).**  In a build with unique asset keys (which the
scanner guarantees), `encryptAssets` never places a binary asset in the
encrypted map, and the payload-replacement step of `build.js` therefore
leaves every binary asset — in particular its stored content — byte-for-byte
unchanged, whether or not encryption is globally enabled. -/
theorem claim_C5_binaries_never_encrypted (encF : Bytes → Bytes)
    (readFile : String → Bytes) (pats : List String) (assets : List Asset)
    (hnd : (assets.map (fun a => a.assetKey)).Nodup) :
    ∀ k, k < assets.length → (assets.getD k default).isBinary = true →
      ((encryptAssets encF readFile assets pats).lookup
          (assets.getD k default).assetKey = none ∧
        (applyEncryptedContent assets
          (encryptAssets encF readFile assets pats)).getD k default =
          assets.getD k default) := by
  intro k hk hbin
  have hget : assets.getD k default = assets.get ⟨k, hk⟩ := by
    simp [List.getD, List.getElem?_eq_getElem hk]
  have hmem : assets.getD k default ∈ assets := by
    rw [hget]
    exact List.get_mem assets k hk
  have hnone := binary_key_not_encrypted encF readFile pats assets hnd _ hmem hbin
  refine ⟨hnone, ?_⟩
  rw [hget] at hnone ⊢
  simp only [List.get_eq_getElem] at hnone
  simp [applyEncryptedContent, List.getD, List.getElem?_map,
    List.getElem?_eq_getElem hk, hnone]

/-- Binary asset of the C5 witness. -/
def assetBinW : Asset := ⟨some "/r/a.node", "a.node", true, some "H", none, false⟩

/-- Non-binary asset of the C5 witness. -/
def assetTxtW : Asset := ⟨some "/r/d.txt", "d.txt", false, none, none, false⟩

/-- **C5, witness.** -/
theorem claim_C5_witness :
    (([assetBinW, assetTxtW] : List Asset).map (fun a => a.assetKey)).Nodup ∧
    (0 < ([assetBinW, assetTxtW] : List Asset).length ∧
      (([assetBinW, assetTxtW] : List Asset).getD 0 default).isBinary = true ∧
      ((encryptAssets (fun b => 9 :: b) (fun _ => [4]) [assetBinW, assetTxtW] []).lookup
          (([assetBinW, assetTxtW] : List Asset).getD 0 default).assetKey = none ∧
        (applyEncryptedContent [assetBinW, assetTxtW]
          (encryptAssets (fun b => 9 :: b) (fun _ => [4]) [assetBinW, assetTxtW] [])).getD
            0 default =
          ([assetBinW, assetTxtW] : List Asset).getD 0 default)) :=
  ⟨by decide,
    by decide,
    by decide,
    claim_C5_binaries_never_encrypted (fun b => 9 :: b) (fun _ => [4])
      [] [assetBinW, assetTxtW] (by decide) 0 (by decide) (by decide)⟩

/-! ## Claim C6: the extraction path layout -/

/-- **C6, counterexample.**  When the `SEACACHE` environment-variable
override is set, `getExtractionCacheDir` returns the override *directly* —
it does not append `<appName>/<appVersion>-<platform>-<arch>` — so the
extraction path is `<override>/<fileName>`, not the claimed
`<cacheRoot>/<appName>/<appVersion>-<platform>-<arch>/<fileName>`. -/
theorem claim_C6_counterexample :
    truthy (Env.mk (some "/tmp/c") none none "/w" []).seacache = some "/tmp/c" ∧
    binaryTargetPath (Env.mk (some "/tmp/c") none none "/w" [])
      (Manifest.mk "app" "1.0.0" "linux" "x64" [] [] none) "x.node" =
      "/tmp/c/x.node" ∧
    "/tmp/c/x.node" ≠
      pjoin (pjoin (pjoin "/tmp/c" "app") "1.0.0-linux-x64") "x.node" := by
  decide

/-- **C6, amended.**  The extraction path of a binary entry is:
`<override>/<fileName>` when the `SEACACHE` environment override is set
(non-empty); otherwise
`<base>/<appName>/<appVersion>-<platform>-<arch>/<fileName>` where `<base>`
is the manifest's `cacheLocation` after `%VAR%`/`${VAR}`/`$VAR` expansion
(made absolute against the working directory if relative) when that is set,
and otherwise `<LOCALAPPDATA | HOME | cwd>/.sea-cache`. -/
theorem claim_C6_amended (env : Env) (m : Manifest) (fileName : String) :
    (∀ s, truthy env.seacache = some s →
      binaryTargetPath env m fileName = pjoin s fileName) ∧
    (∀ loc, truthy env.seacache = none → truthy m.cacheLocation = some loc →
      binaryTargetPath env m fileName =
        pjoin (pjoin (pjoin
          (if isAbsolutePath (resolveEnvVars env.vars loc) then
            resolveEnvVars env.vars loc
           else pjoin env.cwd (resolveEnvVars env.vars loc)) m.appName)
          (m.appVersion ++ "-" ++ m.platform ++ "-" ++ m.arch)) fileName) ∧
    (truthy env.seacache = none → truthy m.cacheLocation = none →
      binaryTargetPath env m fileName =
        pjoin (pjoin (pjoin (pjoin
          (match truthy env.localAppData with
           | some l => l
           | none =>
             match truthy env.home with
             | some h => h
             | none => env.cwd) ".sea-cache") m.appName)
          (m.appVersion ++ "-" ++ m.platform ++ "-" ++ m.arch)) fileName) := by
  refine ⟨?_, ?_, ?_⟩
  · intro s hs
    unfold binaryTargetPath getExtractionCacheDir
    rw [hs]
  · intro loc h0 h1
    unfold binaryTargetPath getExtractionCacheDir
    rw [h0, h1]
  · intro h0 h1
    unfold binaryTargetPath getExtractionCacheDir
    rw [h0, h1]

/-- **C6, witness for the amended theorem** (override branch). -/
theorem claim_C6_amended_witness :
    truthy (Env.mk (some "/t") none none "/w" []).seacache = some "/t" ∧
    binaryTargetPath (Env.mk (some "/t") none none "/w" [])
      (Manifest.mk "app" "1.0.0" "linux" "x64" [] [] none) "x.node" =
      pjoin "/t" "x.node" :=
  ⟨rfl,
    (claim_C6_amended (Env.mk (some "/t") none none "/w" [])
      (Manifest.mk "app" "1.0.0" "linux" "x64" [] [] none) "x.node").1 "/t" rfl⟩

/-! ## Claim C7: missing binary hashes -/

/-- A binary asset without a hash, as the claim C7 scenario requires. -/
def assetNoHash : Asset := ⟨some "/r/a.node", "a.node", true, none, none, false⟩

/-- **C7, counterexample.**  `generateManifest` performs no validation at
all: on an asset list whose only binary lacks a hash it does not fail — it
returns a complete manifest whose binary entry simply has no hash
(`hash: undefined`). -/
theorem claim_C7_counterexample :
    assetNoHash.isBinary = true ∧ assetNoHash.hash = none ∧
    generateManifest [assetNoHash] ⟨none, none, none⟩ "linux" "x64" =
      ⟨"app", "1.0.0", "linux", "x64",
        [⟨"a.node", "a.node", "linux", "x64", 20, none⟩], ["a.node"], none⟩ := by
  decide

/-- Every element of a list appears (at its index) in `mapIdx`'s output. -/
theorem mem_mapIdx_of_mem {α β : Type} (f : Nat → α → β) (l : List α) (x : α)
    (hx : x ∈ l) : ∃ i, f i x ∈ l.mapIdx f := by
  induction l generalizing f with
  | nil => cases hx
  | cons y ys ih =>
    rw [List.mapIdx_cons]
    rcases List.mem_cons.mp hx with rfl | hmem
    · exact ⟨0, List.mem_cons_self _ _⟩
    · obtain ⟨i, hi⟩ := ih (fun i a => f (i + 1) a) hmem
      exact ⟨i + 1, List.mem_cons_of_mem _ hi⟩

/-- **C7, amended.**  The manifest builder does not fail on a binary asset
that lacks a hash: the asset flows through and yields a manifest entry whose
`hash` field is absent (`undefined`).  (In the integrated pipeline the
scanner always computes a hash for binary assets, so the unvalidated case
arises only for hand-built asset lists.) -/
theorem claim_C7_amended (assets : List Asset) (config : BuildConfig)
    (targetPlatform targetArch : String) (x : Asset)
    (hx : x ∈ assets) (hbin : x.isBinary = true) (hh : x.hash = none) :
    ∃ e ∈ (generateManifest assets config targetPlatform targetArch).binaries,
      e.assetKey = x.assetKey ∧ e.hash = none := by
  have hf : x ∈ assets.filter (fun a => a.isBinary) :=
    List.mem_filter.mpr ⟨hx, by simp [hbin]⟩
  obtain ⟨i, hi⟩ := mem_mapIdx_of_mem
    (fun index asset =>
      let fileName := basename (asset.sourcePath.getD "")
      { assetKey := asset.assetKey
        fileName := fileName
        platform := targetPlatform
        arch := targetArch
        order := inferExtractionOrder fileName index
        hash := asset.hash : BinaryEntry })
    (assets.filter (fun a => a.isBinary)) x hf
  exact ⟨_, hi, rfl, hh⟩

/-- **C7, witness for the amended theorem.** -/
theorem claim_C7_amended_witness :
    assetNoHash ∈ ([assetNoHash] : List Asset) ∧
    assetNoHash.isBinary = true ∧ assetNoHash.hash = none ∧
    ∃ e ∈ (generateManifest [assetNoHash] ⟨none, none, none⟩ "linux" "x64").binaries,
      e.assetKey = assetNoHash.assetKey ∧ e.hash = none :=
  ⟨by decide, by decide, by decide,
    claim_C7_amended [assetNoHash] ⟨none, none, none⟩ "linux" "x64" assetNoHash
      (by decide) (by decide) (by decide)⟩

/-! ## Claim C8: ordering of the manifest's binaries -/

/-- A `.node` binary scanned before a `.dll` binary, for the C8
counterexample. -/
def assetNodeC8 : Asset := ⟨some "/r/a.node", "a.node", true, some "H1", none, false⟩

/-- The `.dll` binary of the C8 counterexample. -/
def assetDllC8 : Asset := ⟨some "/r/b.dll", "b.dll", true, some "H2", none, false⟩

/-- **C8, counterexample.**  `generateManifest` emits `binaries` in input
asset order and does not sort: a `.node` asset (order 20) scanned before a
`.dll` asset (order 10) yields the order sequence `[20, 10]`, which is not
ascending. -/
theorem claim_C8_counterexample :
    ((generateManifest [assetNodeC8, assetDllC8] ⟨none, none, none⟩
        "linux" "x64").binaries.map (fun e => e.order)) = [20, 10] ∧
    ¬ List.Sorted (fun e1 e2 : BinaryEntry => e1.order ≤ e2.order)
      ((generateManifest [assetNodeC8, assetDllC8] ⟨none, none, none⟩
        "linux" "x64").binaries) := by
  decide

/-- **C8, amended.**  The manifest's `binaries` field is in input asset
order (with the extension-heuristic `order` values); it is the runtime
bootstrap that sorts: the platform-filtered list it extracts from is sorted
ascending by `order` and is a permutation of the filtered manifest
entries. -/
theorem claim_C8_amended (m : Manifest) (procPlatform procArch : String) :
    List.Sorted (fun e1 e2 : BinaryEntry => e1.order ≤ e2.order)
      (platformBinaries m procPlatform procArch) ∧
    (platformBinaries m procPlatform procArch).Perm
      (m.binaries.filter fun b =>
        (b.platform == "*" || b.platform == procPlatform) &&
        (b.arch == "*" || b.arch == procArch)) :=
  ⟨List.sorted_insertionSort _ _, List.perm_insertionSort _ _⟩

/-! ## Claim C9: asset-key uniqueness and collision behavior -/

/-- `List.contains` is `false` exactly on non-members. -/
theorem contains_false_iff (l : List String) (x : String) :
    l.contains x = false ↔ x ∉ l := by
  rw [List.contains_eq_any_beq]
  simp
  exact ⟨fun h hm => (h x hm) rfl, fun h y hy hxy => h (hxy ▸ hy)⟩

/-- `List.getD` on a cons at a successor index (strings). -/
theorem getD_cons_succ_str (b : String) (rest : List String) (k : Nat) :
    (b :: rest).getD (k + 1) "" = rest.getD k "" := by
  simp [List.getD]

/-- Invariant of the scanner loop: every produced asset comes from the first
match with its key, its key is outside `seen`, and the produced keys are
distinct. -/
theorem scanLoop_spec (binPats : List String) (root : String)
    (sha : Bytes → String) (readFile : String → Bytes) :
    ∀ (ms seen : List String),
      (∀ a ∈ scanLoop binPats root sha readFile ms seen,
        seen.contains a.assetKey = false ∧
        ∃ k, k < ms.length ∧ a = mkAsset binPats root sha readFile (ms.getD k "") ∧
          ∀ j, j < k → normalizeAssetKey (ms.getD j "") ≠ a.assetKey) ∧
      ((scanLoop binPats root sha readFile ms seen).map
        (fun a => a.assetKey)).Nodup := by
  intro ms
  induction ms with
  | nil =>
    intro seen
    exact ⟨fun a ha => absurd ha (by simp [scanLoop]), by simp [scanLoop]⟩
  | cons m rest ih =>
    intro seen
    by_cases hc : seen.contains (normalizeAssetKey m)
    · -- duplicate key: the match is skipped
      obtain ⟨ihm, ihn⟩ := ih seen
      constructor
      · intro a ha
        rw [scanLoop, if_pos hc] at ha
        obtain ⟨hseen, k, hk, hak, hfirst⟩ := ihm a ha
        refine ⟨hseen, k + 1, by simpa using Nat.succ_lt_succ hk,
          by simpa [getD_cons_succ_str] using hak, ?_⟩
        intro j hj
        cases j with
        | zero =>
          simp only [List.getD_cons_zero]
          intro he
          rw [he] at hc
          rw [hseen] at hc
          exact Bool.false_ne_true hc
        | succ j' =>
          rw [getD_cons_succ_str]
          exact hfirst j' (by omega)
      · rw [scanLoop, if_pos hc]
        exact ihn
    · -- new key: the asset is produced
      obtain ⟨ihm, ihn⟩ := ih (normalizeAssetKey m :: seen)
      constructor
      · intro a ha
        rw [scanLoop, if_neg hc] at ha
        rcases List.mem_cons.mp ha with rfl | hmem
        · refine ⟨by simpa [mkAsset] using hc, 0, by simp, by simp, ?_⟩
          intro j hj
          exact absurd hj (Nat.not_lt_zero j)
        · obtain ⟨hseen, k, hk, hak, hfirst⟩ := ihm a hmem
          have hboth : a.assetKey ≠ normalizeAssetKey m ∧
              seen.contains a.assetKey = false := by
            have := (contains_false_iff _ _).mp hseen
            constructor
            · intro he
              exact this (by simp [he])
            · exact (contains_false_iff _ _).mpr fun hm2 => this (by simp [hm2])
          refine ⟨hboth.2, k + 1, by simpa using Nat.succ_lt_succ hk,
            by simpa [getD_cons_succ_str] using hak, ?_⟩
          intro j hj
          cases j with
          | zero =>
            simp only [List.getD_cons_zero]
            exact fun he => hboth.1 (he.symm)
          | succ j' =>
            rw [getD_cons_succ_str]
            exact hfirst j' (by omega)
      · rw [scanLoop, if_neg hc]
        rw [List.map_cons, List.nodup_cons]
        constructor
        · intro hmem
          obtain ⟨a, ha, hak⟩ := List.mem_map.mp hmem
          have hseen := (ihm a ha).1
          have := (contains_false_iff _ _).mp hseen
          exact this (by simp [hak, mkAsset])
        · exact ihn

/-- **C9, amended.**  Asset keys are unique within one build (that part of
the claim holds), but on a key collision the *earlier* scanned file wins:
later matches resolving to an already-seen key are skipped, so every
produced asset comes from the first match with its key. -/
theorem claim_C9_amended (binPats : List String) (root : String)
    (sha : Bytes → String) (readFile : String → Bytes) (ms : List String) :
    ((scanAssets binPats root sha readFile ms).map (fun a => a.assetKey)).Nodup ∧
    ∀ a ∈ scanAssets binPats root sha readFile ms,
      ∃ k, k < ms.length ∧ a = mkAsset binPats root sha readFile (ms.getD k "") ∧
        ∀ j, j < k → normalizeAssetKey (ms.getD j "") ≠ a.assetKey := by
  obtain ⟨hm, hn⟩ := scanLoop_spec binPats root sha readFile ms []
  exact ⟨hn, fun a ha => (hm a ha).2⟩

/-- **C9, counterexample.**  Two matches resolving to the same asset key
(`"a\b.node"` and `"a/b.node"` both normalize to `"a/b.node"`): the claim
says the later one wins, but the scanner keeps the *first* — the resulting
single asset's `sourcePath` is the first match's path. -/
theorem claim_C9_counterexample :
    normalizeAssetKey "a\\b.node" = normalizeAssetKey "a/b.node" ∧
    resolvePath "/r" "a\\b.node" ≠ resolvePath "/r" "a/b.node" ∧
    scanAssets [] "/r" (fun _ => "H") (fun _ => []) ["a\\b.node", "a/b.node"] =
      [⟨some "/r/a\\b.node", "a/b.node", true, some "H", none, false⟩] := by
  decide

/-- **C9, witness for the amended theorem**, instantiated at the collision
scenario's produced asset. -/
theorem claim_C9_amended_witness :
    ((scanAssets [] "/r" (fun _ => "H") (fun _ => [])
      ["a\\b.node", "a/b.node"]).map (fun a => a.assetKey)).Nodup ∧
    (⟨some "/r/a\\b.node", "a/b.node", true, some "H", none, false⟩ : Asset) ∈
      scanAssets [] "/r" (fun _ => "H") (fun _ => []) ["a\\b.node", "a/b.node"] ∧
    ∃ k, k < (["a\\b.node", "a/b.node"] : List String).length ∧
      (⟨some "/r/a\\b.node", "a/b.node", true, some "H", none, false⟩ : Asset) =
        mkAsset [] "/r" (fun _ => "H") (fun _ => [])
          ((["a\\b.node", "a/b.node"] : List String).getD k "") ∧
      ∀ j, j < k →
        normalizeAssetKey ((["a\\b.node", "a/b.node"] : List String).getD j "") ≠
          (⟨some "/r/a\\b.node", "a/b.node", true, some "H", none, false⟩ : Asset).assetKey :=
  ⟨(claim_C9_amended [] "/r" (fun _ => "H") (fun _ => [])
      ["a\\b.node", "a/b.node"]).1,
    by decide,
    (claim_C9_amended [] "/r" (fun _ => "H") (fun _ => [])
      ["a\\b.node", "a/b.node"]).2
      ⟨some "/r/a\\b.node", "a/b.node", true, some "H", none, false⟩ (by decide)⟩

end Seabox
